import Mathlib

/-!
Verification of the configuration store and activation engine of the `ccc`
CLI tool (a Go program, `main.go`).  The Go code is shallowly embedded:
structs become structures, slices become lists, the JSON settings map
becomes a function `String → Option JsonVal`, and fallible operations
return `Except CccError`.  Byte strings manipulated character-wise
(`maskAPIKey`, `extractDomainFromURL`) are embedded over `List Char`.
-/

set_option autoImplicit false

namespace Ccc

/-- One configuration entry, mirroring the Go struct `Configuration`
(fields `Name`, `BaseURL`, `APIKey`, `Active`). -/
structure Configuration where
  name : String
  baseURL : String
  apiKey : String
  active : Bool
deriving DecidableEq, Repr

/-- The persisted store, mirroring the Go struct `ConfigFile` with its
single field `Configurations []Configuration`. -/
structure ConfigFile where
  configurations : List Configuration
deriving DecidableEq, Repr

/-- The domain-level errors the operations can report (each corresponds to
a `fmt.Errorf` return in `main.go` before any `saveConfig` call). -/
inductive CccError where
  | duplicateName (name : String)
  | notFound (name : String)
  | activeProfileDeletion (name : String)
deriving DecidableEq, Repr

/-- Mirrors Go `findConfiguration`: first configuration whose `Name`
equals `name`, if any. -/
def findConfiguration (config : ConfigFile) (name : String) : Option Configuration :=
  config.configurations.find? (fun c => c.name == name)

/-- Mirrors Go `setActiveConfiguration`: every configuration's `Active`
flag becomes the result of comparing its name with `activeName`. -/
def setActiveConfiguration (config : ConfigFile) (activeName : String) : ConfigFile :=
  ⟨config.configurations.map (fun c => { c with active := c.name == activeName })⟩

/-- Mirrors Go `addConfiguration` (minus I/O): duplicate-name check, then
append a new entry, active exactly when the store was empty. -/
def addConfiguration (config : ConfigFile) (name baseURL apiKey : String) :
    Except CccError ConfigFile :=
  if (findConfiguration config name).isSome then
    .error (.duplicateName name)
  else
    .ok ⟨config.configurations ++
      [{ name := name, baseURL := baseURL, apiKey := apiKey,
         active := config.configurations.isEmpty }]⟩

/-- The field updates Go `updateConfiguration` applies through the pointer
returned by `findConfiguration`: each of the two fields is overwritten
only when the corresponding argument is non-empty. -/
def applyUpdate (c : Configuration) (baseURL apiKey : String) : Configuration :=
  let c1 := if baseURL ≠ "" then { c with baseURL := baseURL } else c
  if apiKey ≠ "" then { c1 with apiKey := apiKey } else c1

/-- Applies `applyUpdate` to the first configuration named `name`,
leaving the rest of the list unchanged (Go mutates in place through the
pointer into the slice). -/
def updateFirst (l : List Configuration) (name baseURL apiKey : String) :
    List Configuration :=
  match l with
  | [] => []
  | c :: rest =>
    if c.name == name then applyUpdate c baseURL apiKey :: rest
    else c :: updateFirst rest name baseURL apiKey

/-- Mirrors Go `updateConfiguration` (minus I/O): not-found check, then
in-place field update of the found configuration. -/
def updateConfiguration (config : ConfigFile) (name baseURL apiKey : String) :
    Except CccError ConfigFile :=
  match findConfiguration config name with
  | none => .error (.notFound name)
  | some _ => .ok ⟨updateFirst config.configurations name baseURL apiKey⟩

/-- Mirrors Go `deleteConfiguration` (minus I/O): not-found check, then
refusal to delete an active configuration, then removal of every entry
carrying the name (Go keeps exactly those with `c.Name != name`). -/
def deleteConfiguration (config : ConfigFile) (name : String) :
    Except CccError ConfigFile :=
  match findConfiguration config name with
  | none => .error (.notFound name)
  | some conf =>
    if conf.active then .error (.activeProfileDeletion name)
    else .ok ⟨config.configurations.filter (fun c => c.name != name)⟩

/-- The store-mutating part of Go `activateConfiguration` (the platform
side effect that follows the save is modelled separately): not-found
check, then `setActiveConfiguration`. -/
def activateConfiguration (config : ConfigFile) (name : String) :
    Except CccError ConfigFile :=
  match findConfiguration config name with
  | none => .error (.notFound name)
  | some _ => .ok (setActiveConfiguration config name)

/-- The on-disk store after an operation: Go calls `saveConfig` only on
the success path, so an error leaves the previously persisted store. -/
def runPersist (store : ConfigFile) (r : Except CccError ConfigFile) : ConfigFile :=
  match r with
  | .ok c => c
  | .error _ => store

/-- Number of active entries in a list of configurations. -/
def countActiveL (l : List Configuration) : Nat :=
  (l.filter (fun c => c.active)).length

/-- Number of active entries in the store: the collection invariant of the
spec is `countActive ≤ 1`. -/
def countActive (config : ConfigFile) : Nat :=
  countActiveL config.configurations

/-- The uniqueness-of-names collection invariant. -/
def namesUnique (config : ConfigFile) : Prop :=
  (config.configurations.map (fun c => c.name)).Nodup

instance (config : ConfigFile) : Decidable (namesUnique config) := by
  unfold namesUnique; infer_instance

/-! ### Display masking (`maskAPIKey`)

Go slices the string byte-wise; the embedding works over the character
list of the string, which agrees with the Go code on its intended
single-byte-character inputs. -/

/-- Mirrors Go `maskAPIKey`: up to 8 characters everything is replaced by
`*`; beyond that the first and last 4 characters stay and only the middle
is masked. -/
def maskAPIKey (apiKey : List Char) : List Char :=
  if apiKey.length ≤ 8 then
    List.replicate apiKey.length '*'
  else
    apiKey.take 4 ++ List.replicate (apiKey.length - 8) '*' ++
      apiKey.drop (apiKey.length - 4)

/-! ### Domain-name extraction (`extractDomainFromURL`)

The Go function delegates hostname extraction to the standard library
(`net/url`, an external collaborator of this repository); `hostnameOf`
below models `url.Parse(...).Hostname()` for the URL shapes the tool
handles: parse failure on ASCII control characters, empty host when the
input has no `://` scheme separator (such an input parses as a bare
path), otherwise the authority up to the first `/`, `?` or `#`, with
user-info before `@` and a port after the last `:` stripped. -/

/-- Splits a character list on a separator character (model of Go
`strings.Split`); never returns the empty list. -/
def splitOnChar (sep : Char) : List Char → List (List Char)
  | [] => [[]]
  | c :: rest =>
    let r := splitOnChar sep rest
    if c = sep then [] :: r
    else
      match r with
      | h :: t => (c :: h) :: t
      | [] => [[c]]

/-- True when the list contains an ASCII control character, on which
`url.Parse` fails. -/
def hasCtl (s : List Char) : Bool :=
  s.any (fun c => c.toNat < 32 || c.toNat == 127)

/-- The text after the first `://`, if the separator occurs. -/
def afterSchemeSep : List Char → Option (List Char)
  | ':' :: '/' :: '/' :: rest => some rest
  | _ :: rest => afterSchemeSep rest
  | [] => none

/-- Model of Go `net/url`'s port stripping: drop everything after the
last `:`, with the bracketed IPv6 form handled as in the library. -/
def stripPort (hostport : List Char) : List Char :=
  if hostport.contains ']' then
    match hostport.takeWhile (fun c => c ≠ ']') with
    | '[' :: t => t
    | l => l
  else
    match splitOnChar ':' hostport with
    | [h] => h
    | parts => List.intercalate [':'] parts.dropLast

/-- Model of `url.Parse(s).Hostname()` (external Go library): `none` on
parse failure, otherwise the hostname, which is empty when the input has
no scheme separator. -/
def hostnameOf (s : List Char) : Option (List Char) :=
  if hasCtl s then none
  else
    match afterSchemeSep s with
    | none => some []
    | some rest =>
      let authority := rest.takeWhile (fun c => !(c == '/' || c == '?' || c == '#'))
      let hostport := (splitOnChar '@' authority).getLastD []
      some (stripPort hostport)

/-- Drops a leading `www.` (Go `strings.TrimPrefix`). -/
def trimWWW (hostname : List Char) : List Char :=
  if List.isPrefixOf "www.".toList hostname then hostname.drop 4 else hostname

/-- Mirrors Go `extractDomainFromURL`: `"default"` for empty input, parse
failure or empty hostname; otherwise strip `www.`, split on `.`, and pick
the label at index 1 when there are at least 3 labels, the first label
otherwise. -/
def extractDomainFromURL (baseURL : List Char) : List Char :=
  if baseURL = [] then "default".toList
  else
    match hostnameOf baseURL with
    | none => "default".toList
    | some hostname0 =>
      if hostname0 = [] then "default".toList
      else
        let hostname := trimWWW hostname0
        let parts := splitOnChar '.' hostname
        if 2 ≤ parts.length then
          if 3 ≤ parts.length then parts.getD 1 []
          else parts.headD []
        else parts.headD []

/-! ### JSON values, the settings file and persistence -/

/-- A JSON value, as handled by Go `encoding/json` (`interface` values
in the settings map, typed fields in the store file). -/
inductive JsonVal where
  | str (s : String)
  | num (n : Int)
  | bool (b : Bool)
  | null
  | arr (elems : List JsonVal)
  | obj (fields : List (String × JsonVal))

/-- The settings `env` map, a sparse string-keyed mapping. -/
def EnvMap : Type := String → Option JsonVal

/-- Go map assignment `m[k] = v`. -/
def envInsert (m : EnvMap) (k : String) (v : JsonVal) : EnvMap :=
  fun key => if key = k then some v else m key

/-- The `env`-map transformation performed by Go `setUnixSettingsFile` on
the settings read from disk: both identity keys are overwritten with the
active configuration's values, and each of the two default keys is
inserted only when absent. -/
def setUnixSettingsEnv (env : EnvMap) (activeConfig : Configuration) : EnvMap :=
  let env1 := envInsert env "ANTHROPIC_AUTH_TOKEN" (.str activeConfig.apiKey)
  let env2 := envInsert env1 "ANTHROPIC_BASE_URL" (.str activeConfig.baseURL)
  let env3 :=
    if (env2 "API_TIMEOUT_MS").isSome then env2
    else envInsert env2 "API_TIMEOUT_MS" (.str "3000000")
  if (env3 "CLAUDE_CODE_DISABLE_NONESSENTIAL_TRAFFIC").isSome then env3
  else envInsert env3 "CLAUDE_CODE_DISABLE_NONESSENTIAL_TRAFFIC" (.num 1)

/-- Go `json.Marshal` of a `Configuration`: an object with the four
fields in struct order, under their JSON tags. -/
def encodeConfiguration (c : Configuration) : JsonVal :=
  .obj [("name", .str c.name), ("base_url", .str c.baseURL),
        ("api_key", .str c.apiKey), ("active", .bool c.active)]

/-- Go `json.Marshal` of a `ConfigFile`. -/
def encodeConfigFile (config : ConfigFile) : JsonVal :=
  .obj [("configurations", .arr (config.configurations.map encodeConfiguration))]

/-- First value bound to key `k` in a JSON object's field list. -/
def lookupField (fields : List (String × JsonVal)) (k : String) : Option JsonVal :=
  (fields.find? (fun kv => kv.1 == k)).map (fun kv => kv.2)

/-- Go `json.Unmarshal` into a `string` field: a missing field keeps the
zero value, a non-string value is a type error. -/
def decodeStr : Option JsonVal → Option String
  | none => some ""
  | some (.str s) => some s
  | some _ => none

/-- Go `json.Unmarshal` into a `bool` field. -/
def decodeBool : Option JsonVal → Option Bool
  | none => some false
  | some (.bool b) => some b
  | some _ => none

/-- Go `json.Unmarshal` of one `Configuration`: unknown fields are
ignored, missing fields default to the zero value. -/
def decodeConfiguration (j : JsonVal) : Option Configuration :=
  match j with
  | .obj fields => do
    let name ← decodeStr (lookupField fields "name")
    let baseURL ← decodeStr (lookupField fields "base_url")
    let apiKey ← decodeStr (lookupField fields "api_key")
    let active ← decodeBool (lookupField fields "active")
    pure { name := name, baseURL := baseURL, apiKey := apiKey, active := active }
  | _ => none

/-- Go `json.Unmarshal` of a `[]Configuration` value: every element must
decode. -/
def decodeConfigurations : List JsonVal → Option (List Configuration)
  | [] => some []
  | j :: rest => do
    let c ← decodeConfiguration j
    let cs ← decodeConfigurations rest
    pure (c :: cs)

/-- Go `json.Unmarshal` of the store file (the existing-file branch of
`loadConfig`): `none` models the `failed to parse config file` error. -/
def decodeConfigFile (j : JsonVal) : Option ConfigFile :=
  match j with
  | .obj fields =>
    match lookupField fields "configurations" with
    | none => some ⟨[]⟩
    | some (.arr elems) => (decodeConfigurations elems).map (fun cs => ⟨cs⟩)
    | some _ => none
  | _ => none

/-- The write `saveConfig` hands to `os.WriteFile`: serialized content
together with the file permission bits. -/
structure WriteCall where
  content : JsonVal
  mode : Nat

/-- Mirrors Go `saveConfig`: marshal the store and write it with the
literal permission bits `0644` passed to `os.WriteFile`. -/
def saveConfig (config : ConfigFile) : WriteCall :=
  ⟨encodeConfigFile config, 0o644⟩

/-- True when the low six permission bits (group and other) grant any
access. -/
def modeGrantsGroupOtherAccess (mode : Nat) : Bool :=
  mode % 64 ≠ 0

/-- The existing-file branch of Go `loadConfig`, applied to the bytes'
parsed JSON value. -/
def loadConfigFromData (j : JsonVal) : Option ConfigFile :=
  decodeConfigFile j

/-! ### Helper lemmas -/

theorem applyUpdate_active (c : Configuration) (baseURL apiKey : String) :
    (applyUpdate c baseURL apiKey).active = c.active := by
  unfold applyUpdate
  dsimp only
  split_ifs <;> rfl

theorem countActiveL_cons (c : Configuration) (l : List Configuration) :
    countActiveL (c :: l) = (if c.active then 1 else 0) + countActiveL l := by
  simp only [countActiveL, List.filter_cons]
  split <;> simp [Nat.add_comm]

theorem countActiveL_append (l₁ l₂ : List Configuration) :
    countActiveL (l₁ ++ l₂) = countActiveL l₁ + countActiveL l₂ := by
  simp [countActiveL, List.filter_append]

theorem countActiveL_singleton (c : Configuration) :
    countActiveL [c] = if c.active then 1 else 0 := by
  rw [countActiveL_cons]
  simp [countActiveL]

theorem countActiveL_updateFirst (l : List Configuration) (n u k : String) :
    countActiveL (updateFirst l n u k) = countActiveL l := by
  induction l with
  | nil => rfl
  | cons c rest ih =>
    unfold updateFirst
    split
    · rw [countActiveL_cons, countActiveL_cons, applyUpdate_active]
    · rw [countActiveL_cons, countActiveL_cons, ih]

theorem countActiveL_filter_le (l : List Configuration) (q : Configuration → Bool) :
    countActiveL (l.filter q) ≤ countActiveL l :=
  ((l.filter_sublist).filter _).length_le

theorem filter_name_len_le_one (l : List Configuration) (n : String)
    (h : (l.map (fun c => c.name)).Nodup) :
    (l.filter (fun c => c.name == n)).length ≤ 1 := by
  induction l with
  | nil => simp
  | cons c rest ih =>
    simp only [List.map_cons, List.nodup_cons] at h
    by_cases hc : c.name = n
    · have hrest : rest.filter (fun c => c.name == n) = [] := by
        rw [List.filter_eq_nil_iff]
        intro d hd hdn
        exact h.1 (by
          rw [List.mem_map]
          exact ⟨d, hd, by rw [eq_of_beq hdn, hc]⟩)
      simp [List.filter_cons, hc, hrest]
    · simpa [List.filter_cons, hc] using ih h.2

theorem filter_name_len_eq_one (l : List Configuration) (n : String)
    (h : (l.map (fun c => c.name)).Nodup) (hm : ∃ c ∈ l, c.name = n) :
    (l.filter (fun c => c.name == n)).length = 1 := by
  have hle := filter_name_len_le_one l n h
  obtain ⟨c, hc, hcn⟩ := hm
  have hmem : c ∈ l.filter (fun c => c.name == n) :=
    List.mem_filter.mpr ⟨hc, by simp [hcn]⟩
  have hpos := List.length_pos_of_mem hmem
  omega

theorem countActiveL_setActive (l : List Configuration) (n : String) :
    countActiveL (l.map (fun c => { c with active := c.name == n })) =
      (l.filter (fun c => c.name == n)).length := by
  induction l with
  | nil => rfl
  | cons c rest ih =>
    rw [List.map_cons, countActiveL_cons, List.filter_cons]
    cases hb : (c.name == n) with
    | true => simp [hb, ih, Nat.add_comm]
    | false => simp [hb, ih]

theorem add_ok (config : ConfigFile) (name baseURL apiKey : String) (c2 : ConfigFile)
    (h : addConfiguration config name baseURL apiKey = .ok c2) :
    c2 = ⟨config.configurations ++
      [{ name := name, baseURL := baseURL, apiKey := apiKey,
         active := config.configurations.isEmpty }]⟩ := by
  unfold addConfiguration at h
  split at h
  · exact absurd h (by simp)
  · injection h with h
    exact h.symm

theorem update_ok (config : ConfigFile) (name baseURL apiKey : String) (c2 : ConfigFile)
    (h : updateConfiguration config name baseURL apiKey = .ok c2) :
    c2 = ⟨updateFirst config.configurations name baseURL apiKey⟩ := by
  unfold updateConfiguration at h
  split at h
  · exact absurd h (by simp)
  · injection h with h
    exact h.symm

theorem delete_ok (config : ConfigFile) (name : String) (c2 : ConfigFile)
    (h : deleteConfiguration config name = .ok c2) :
    c2 = ⟨config.configurations.filter (fun c => c.name != name)⟩ := by
  unfold deleteConfiguration at h
  split at h
  · exact absurd h (by simp)
  · split at h
    · exact absurd h (by simp)
    · injection h with h
      exact h.symm

/-! ### Claim theorems -/

/-- C1: for every Collection satisfying the Collection invariants (unique
names, at most one active Profile), after any successful `add`, `update`,
`delete` or `setActive` the resulting Collection again has at most one
Profile with `isActive = true`. -/
theorem active_invariant_after_mutations (config : ConfigFile)
    (hnames : namesUnique config) (hact : countActive config ≤ 1) :
    (∀ name baseURL apiKey c2, addConfiguration config name baseURL apiKey = .ok c2 →
        countActive c2 ≤ 1) ∧
    (∀ name baseURL apiKey c2, updateConfiguration config name baseURL apiKey = .ok c2 →
        countActive c2 ≤ 1) ∧
    (∀ name c2, deleteConfiguration config name = .ok c2 → countActive c2 ≤ 1) ∧
    (∀ name, countActive (setActiveConfiguration config name) ≤ 1) := by
  refine ⟨?_, ?_, ?_, ?_⟩
  · intro name baseURL apiKey c2 h
    rw [add_ok config name baseURL apiKey c2 h]
    show countActiveL (config.configurations ++
      [⟨name, baseURL, apiKey, config.configurations.isEmpty⟩]) ≤ 1
    rw [countActiveL_append, countActiveL_singleton]
    by_cases he : config.configurations.isEmpty = true
    · have h0 : config.configurations = [] := List.isEmpty_iff.mp he
      simp [h0, he, countActiveL]
    · have he' : config.configurations.isEmpty = false := by simpa using he
      simpa [he'] using hact
  · intro name baseURL apiKey c2 h
    rw [update_ok config name baseURL apiKey c2 h]
    show countActiveL (updateFirst _ _ _ _) ≤ 1
    rw [countActiveL_updateFirst]
    exact hact
  · intro name c2 h
    rw [delete_ok config name c2 h]
    exact le_trans (countActiveL_filter_le _ _) hact
  · intro name
    show countActiveL (config.configurations.map _) ≤ 1
    rw [countActiveL_setActive]
    exact filter_name_len_le_one _ _ hnames

/-- Witness for C1 at a concrete one-element collection. -/
theorem active_invariant_after_mutations_witness :
    countActive (setActiveConfiguration ⟨[⟨"a", "u", "k", true⟩]⟩ "a") ≤ 1 :=
  (active_invariant_after_mutations ⟨[⟨"a", "u", "k", true⟩]⟩
    (by decide) (by decide)).2.2.2 "a"

/-- C3: every domain-level failure (duplicate name on add, not-found on
update/delete/activate, deletion of the active profile) returns the error
before any save, so the persisted store is exactly the prior one; in
particular deleting the found profile while it is active always fails
with `ActiveProfileDeletion`. -/
theorem domain_errors_leave_store_unchanged (config : ConfigFile) :
    (∀ name baseURL apiKey, (findConfiguration config name).isSome →
        addConfiguration config name baseURL apiKey = .error (.duplicateName name) ∧
        runPersist config (addConfiguration config name baseURL apiKey) = config) ∧
    (∀ name baseURL apiKey, findConfiguration config name = none →
        updateConfiguration config name baseURL apiKey = .error (.notFound name) ∧
        runPersist config (updateConfiguration config name baseURL apiKey) = config) ∧
    (∀ name, findConfiguration config name = none →
        deleteConfiguration config name = .error (.notFound name) ∧
        runPersist config (deleteConfiguration config name) = config) ∧
    (∀ name, findConfiguration config name = none →
        activateConfiguration config name = .error (.notFound name) ∧
        runPersist config (activateConfiguration config name) = config) ∧
    (∀ name conf, findConfiguration config name = some conf → conf.active = true →
        deleteConfiguration config name = .error (.activeProfileDeletion name) ∧
        runPersist config (deleteConfiguration config name) = config) := by
  refine ⟨?_, ?_, ?_, ?_, ?_⟩
  · intro name baseURL apiKey h
    have he : addConfiguration config name baseURL apiKey = .error (.duplicateName name) := by
      unfold addConfiguration
      simp [h]
    exact ⟨he, by rw [he]; rfl⟩
  · intro name baseURL apiKey h
    have he : updateConfiguration config name baseURL apiKey = .error (.notFound name) := by
      unfold updateConfiguration
      rw [h]
    exact ⟨he, by rw [he]; rfl⟩
  · intro name h
    have he : deleteConfiguration config name = .error (.notFound name) := by
      unfold deleteConfiguration
      rw [h]
    exact ⟨he, by rw [he]; rfl⟩
  · intro name h
    have he : activateConfiguration config name = .error (.notFound name) := by
      unfold activateConfiguration
      rw [h]
    exact ⟨he, by rw [he]; rfl⟩
  · intro name conf hfind hact
    have he : deleteConfiguration config name = .error (.activeProfileDeletion name) := by
      unfold deleteConfiguration
      rw [hfind]
      simp [hact]
    exact ⟨he, by rw [he]; rfl⟩

/-- Witness for C3: deleting the active profile of a concrete collection
fails and leaves the store as it was. -/
theorem domain_errors_leave_store_unchanged_witness :
    deleteConfiguration ⟨[⟨"a", "u", "k", true⟩]⟩ "a" =
      .error (.activeProfileDeletion "a") ∧
    runPersist ⟨[⟨"a", "u", "k", true⟩]⟩
      (deleteConfiguration ⟨[⟨"a", "u", "k", true⟩]⟩ "a") = ⟨[⟨"a", "u", "k", true⟩]⟩ :=
  (domain_errors_leave_store_unchanged ⟨[⟨"a", "u", "k", true⟩]⟩).2.2.2.2
    "a" ⟨"a", "u", "k", true⟩ (by decide) (by decide)

/-- C4: `add` fails with `DuplicateName` exactly when a profile with that
name already exists, and on success appends exactly one new profile at
the end — active precisely when the collection was empty — leaving every
pre-existing profile unchanged. -/
theorem addConfiguration_spec (config : ConfigFile) (name baseURL apiKey : String) :
    (addConfiguration config name baseURL apiKey = .error (.duplicateName name) ↔
      ∃ c ∈ config.configurations, c.name = name) ∧
    (∀ c2, addConfiguration config name baseURL apiKey = .ok c2 →
      c2.configurations = config.configurations ++
        [{ name := name, baseURL := baseURL, apiKey := apiKey,
           active := config.configurations.isEmpty }]) := by
  constructor
  · unfold addConfiguration
    by_cases h : (findConfiguration config name).isSome
    · simp only [h, if_true, true_iff]
      unfold findConfiguration at h
      rw [List.find?_isSome] at h
      obtain ⟨c, hc, hcn⟩ := h
      exact ⟨c, hc, eq_of_beq hcn⟩
    · simp only [h, if_false]
      constructor
      · intro hcontra
        exact absurd hcontra (by simp)
      · intro ⟨c, hc, hcn⟩
        exact absurd (List.find?_isSome.mpr ⟨c, hc, by simp [hcn]⟩) h
  · intro c2 h
    rw [add_ok config name baseURL apiKey c2 h]

/-- Witness for C4: a successful add into the empty collection produces
exactly the appended singleton, created active. -/
theorem addConfiguration_spec_witness :
    (⟨[⟨"a", "u", "k", true⟩]⟩ : ConfigFile).configurations =
      (⟨[]⟩ : ConfigFile).configurations ++ [⟨"a", "u", "k", true⟩] :=
  (addConfiguration_spec ⟨[]⟩ "a" "u" "k").2 ⟨[⟨"a", "u", "k", true⟩]⟩ rfl

/-- C5: when the collection contains a profile named `n`, `setActive`
makes exactly that name active — every profile's flag becomes the result
of comparing its name with `n` — and the operation is idempotent. -/
theorem setActive_semantics_idempotent (config : ConfigFile) (n : String)
    (_hmem : ∃ c ∈ config.configurations, c.name = n) :
    (∀ c ∈ (setActiveConfiguration config n).configurations,
        c.active = (c.name == n)) ∧
    setActiveConfiguration (setActiveConfiguration config n) n =
      setActiveConfiguration config n := by
  constructor
  · intro c hc
    unfold setActiveConfiguration at hc
    rw [List.mem_map] at hc
    obtain ⟨d, _, rfl⟩ := hc
    rfl
  · show ConfigFile.mk _ = ConfigFile.mk _
    unfold setActiveConfiguration
    rw [List.map_map]
    rfl

/-- Witness for C5 at a concrete two-element collection. -/
theorem setActive_semantics_idempotent_witness :
    setActiveConfiguration
        (setActiveConfiguration ⟨[⟨"a", "u", "k", false⟩, ⟨"b", "v", "l", true⟩]⟩ "a") "a" =
      setActiveConfiguration ⟨[⟨"a", "u", "k", false⟩, ⟨"b", "v", "l", true⟩]⟩ "a" :=
  (setActive_semantics_idempotent ⟨[⟨"a", "u", "k", false⟩, ⟨"b", "v", "l", true⟩]⟩ "a"
    (by decide)).2

/-- C10: on any collection with unique names containing a profile named
`n` — even one with zero or several active profiles —
`setActiveConfiguration` re-establishes the single-active invariant:
exactly one profile ends up active, namely the one named `n`. -/
theorem setActive_repairs_invariant (config : ConfigFile) (n : String)
    (hnames : namesUnique config) (hmem : ∃ c ∈ config.configurations, c.name = n) :
    countActive (setActiveConfiguration config n) = 1 ∧
    ∀ c ∈ (setActiveConfiguration config n).configurations,
      (c.active = true ↔ c.name = n) := by
  constructor
  · show countActiveL (config.configurations.map _) = 1
    rw [countActiveL_setActive]
    exact filter_name_len_eq_one _ _ hnames hmem
  · intro c hc
    unfold setActiveConfiguration at hc
    rw [List.mem_map] at hc
    obtain ⟨d, _, rfl⟩ := hc
    show (d.name == n) = true ↔ d.name = n
    simp

/-- Witness for C10 at a collection that violates the invariant (two
active profiles): activation repairs it to exactly one. -/
theorem setActive_repairs_invariant_witness :
    countActive (setActiveConfiguration
      ⟨[⟨"a", "u1", "k1", true⟩, ⟨"b", "u2", "k2", true⟩]⟩ "b") = 1 :=
  (setActive_repairs_invariant ⟨[⟨"a", "u1", "k1", true⟩, ⟨"b", "u2", "k2", true⟩]⟩ "b"
    (by decide) (by decide)).1

/-- C2: activation on a file-based platform overwrites exactly the two
identity keys with the profile's secret and endpoint, fills each of the
two default keys only when that key is absent (an existing value is kept),
and leaves every other key of the pre-existing settings map untouched. -/
theorem setUnixSettingsEnv_spec (env : EnvMap) (activeConfig : Configuration) :
    setUnixSettingsEnv env activeConfig "ANTHROPIC_AUTH_TOKEN" =
      some (.str activeConfig.apiKey) ∧
    setUnixSettingsEnv env activeConfig "ANTHROPIC_BASE_URL" =
      some (.str activeConfig.baseURL) ∧
    setUnixSettingsEnv env activeConfig "API_TIMEOUT_MS" =
      some ((env "API_TIMEOUT_MS").getD (.str "3000000")) ∧
    setUnixSettingsEnv env activeConfig "CLAUDE_CODE_DISABLE_NONESSENTIAL_TRAFFIC" =
      some ((env "CLAUDE_CODE_DISABLE_NONESSENTIAL_TRAFFIC").getD (.num 1)) ∧
    ∀ k, k ≠ "ANTHROPIC_AUTH_TOKEN" → k ≠ "ANTHROPIC_BASE_URL" →
      k ≠ "API_TIMEOUT_MS" → k ≠ "CLAUDE_CODE_DISABLE_NONESSENTIAL_TRAFFIC" →
      setUnixSettingsEnv env activeConfig k = env k := by
  refine ⟨?_, ?_, ?_, ?_, ?_⟩
  · simp only [setUnixSettingsEnv]
    split_ifs <;> simp_all [envInsert]
  · simp only [setUnixSettingsEnv]
    split_ifs <;> simp_all [envInsert]
  · cases hT : env "API_TIMEOUT_MS" with
    | none =>
      simp only [setUnixSettingsEnv]
      split_ifs <;> simp_all [envInsert]
    | some v =>
      simp only [setUnixSettingsEnv]
      split_ifs <;> simp_all [envInsert]
  · cases hC : env "CLAUDE_CODE_DISABLE_NONESSENTIAL_TRAFFIC" with
    | none =>
      simp only [setUnixSettingsEnv]
      split_ifs <;> simp_all [envInsert]
    | some v =>
      simp only [setUnixSettingsEnv]
      split_ifs <;> simp_all [envInsert]
  · intro k hk1 hk2 hk3 hk4
    simp only [setUnixSettingsEnv]
    split_ifs <;> simp_all [envInsert]

/-- Witness for C2: a concrete settings map holding a custom key and a
custom timeout is preserved outside the two identity keys. -/
theorem setUnixSettingsEnv_spec_witness :
    setUnixSettingsEnv (fun k => if k = "OTHER" then some (.str "x") else none)
        ⟨"a", "u", "k", true⟩ "OTHER" =
      (fun k => if k = "OTHER" then some (JsonVal.str "x") else none) "OTHER" :=
  (setUnixSettingsEnv_spec (fun k => if k = "OTHER" then some (.str "x") else none)
      ⟨"a", "u", "k", true⟩).2.2.2.2 "OTHER"
    (by decide) (by decide) (by decide) (by decide)

/-- C6 counterexample: for the length-1 secret `"*"` the masked output
consists of characters that do occur in the original, so the claim's
"containing none of the original characters" fails. -/
theorem maskAPIKey_counterexample :
    ¬ (∀ c ∈ maskAPIKey ['*'], c ∉ (['*'] : List Char)) := by decide

/-- C6 (amended): for length at most 8 the output is exactly that many
mask characters (which may coincide with characters of the input, e.g.
when the secret itself contains `*`); for longer input the output keeps
the first and last 4 characters, has the same length, and its middle
segment is `len - 8` mask characters. -/
theorem maskAPIKey_spec (s : List Char) :
    (s.length ≤ 8 → maskAPIKey s = List.replicate s.length '*') ∧
    (8 < s.length →
      (maskAPIKey s).length = s.length ∧
      (maskAPIKey s).take 4 = s.take 4 ∧
      (maskAPIKey s).drop (s.length - 4) = s.drop (s.length - 4) ∧
      ((maskAPIKey s).drop 4).take (s.length - 8) =
        List.replicate (s.length - 8) '*') := by
  constructor
  · intro h
    simp [maskAPIKey, h]
  · intro h
    have hn : ¬ s.length ≤ 8 := by omega
    simp only [maskAPIKey, hn, if_false]
    have ht4 : (s.take 4).length = 4 := by
      rw [List.length_take]
      omega
    have hrep : (List.replicate (s.length - 8) '*').length = s.length - 8 :=
      List.length_replicate _ _
    have hd4 : (s.drop (s.length - 4)).length = 4 := by
      rw [List.length_drop]
      omega
    have hmid : (s.take 4 ++ List.replicate (s.length - 8) '*').length = s.length - 4 := by
      rw [List.length_append, ht4, hrep]
      omega
    refine ⟨?_, ?_, ?_, ?_⟩
    · simp only [List.length_append, ht4, hrep, hd4]
      omega
    · rw [List.append_assoc]
      exact List.take_left' ht4
    · exact List.drop_left' hmid
    · rw [List.append_assoc, List.drop_left' ht4]
      exact List.take_left' hrep

/-- Witness for C6 at both branches: a short and a long concrete secret. -/
theorem maskAPIKey_spec_witness :
    maskAPIKey "12345".toList = List.replicate ("12345".toList).length '*' ∧
    (maskAPIKey "123456789".toList).take 4 = ("123456789".toList).take 4 :=
  ⟨(maskAPIKey_spec "12345".toList).1 (by decide),
   ((maskAPIKey_spec "123456789".toList).2 (by decide)).2.1⟩

/-- C7: domain extraction is `"default"` on empty input, parse failure or
empty hostname; otherwise, after stripping `www.` and splitting on `.`,
it is the label at index 1 when there are at least 3 labels and the
first label otherwise (2 labels: label 0; 1 label: that label); in
particular the two anthropic URLs map to `"anthropic"` and the empty
string maps to `"default"`. -/
theorem extractDomainFromURL_spec :
    (∀ s, s = [] ∨ hostnameOf s = none ∨ hostnameOf s = some [] →
        extractDomainFromURL s = "default".toList) ∧
    (∀ s h, hostnameOf s = some h → h ≠ [] → s ≠ [] →
        extractDomainFromURL s =
          (if 3 ≤ (splitOnChar '.' (trimWWW h)).length then
             (splitOnChar '.' (trimWWW h)).getD 1 []
           else (splitOnChar '.' (trimWWW h)).headD [])) ∧
    extractDomainFromURL "https://api.anthropic.com".toList = "anthropic".toList ∧
    extractDomainFromURL "https://anthropic.com".toList = "anthropic".toList ∧
    extractDomainFromURL [] = "default".toList := by
  refine ⟨?_, ?_, by decide, by decide, by decide⟩
  · intro s hs
    by_cases h0 : s = []
    · simp [extractDomainFromURL, h0]
    · rcases hs with h | h | h
      · exact absurd h h0
      · simp [extractDomainFromURL, h0, h]
      · simp [extractDomainFromURL, h0, h]
  · intro s h hh hne hs
    simp only [extractDomainFromURL, hs, if_false, hh, hne]
    by_cases h3 : 3 ≤ (splitOnChar '.' (trimWWW h)).length
    · have h2 : 2 ≤ (splitOnChar '.' (trimWWW h)).length := by omega
      simp [h2, h3]
    · by_cases h2 : 2 ≤ (splitOnChar '.' (trimWWW h)).length <;> simp [h2, h3]

/-- Witness for C7: the general hostname clause applied to the concrete
URL `https://api.anthropic.com`. -/
theorem extractDomainFromURL_spec_witness :
    extractDomainFromURL "https://api.anthropic.com".toList =
      (if 3 ≤ (splitOnChar '.' (trimWWW "api.anthropic.com".toList)).length then
         (splitOnChar '.' (trimWWW "api.anthropic.com".toList)).getD 1 []
       else (splitOnChar '.' (trimWWW "api.anthropic.com".toList)).headD []) :=
  extractDomainFromURL_spec.2.1 "https://api.anthropic.com".toList
    "api.anthropic.com".toList (by decide) (by decide) (by decide)

/-- C8 counterexample: the permission bits `saveConfig` passes to
`os.WriteFile` are 0644, not 0600, and they do grant group/other
access. -/
theorem saveConfig_mode_counterexample :
    (saveConfig ⟨[]⟩).mode ≠ 0o600 ∧
    modeGrantsGroupOtherAccess (saveConfig ⟨[]⟩).mode = true := by
  constructor
  · decide
  · decide

/-- C8 (amended): for every Collection, `saveConfig` writes the store
file with permission bits 0644 — owner read-write, group and others
read-only — so group and other users are granted (read) access. -/
theorem saveConfig_mode (config : ConfigFile) :
    (saveConfig config).mode = 0o644 ∧
    modeGrantsGroupOtherAccess (saveConfig config).mode = true := by
  refine ⟨rfl, ?_⟩
  show modeGrantsGroupOtherAccess 420 = true
  decide

/-- One configuration survives a marshal/unmarshal round trip. -/
theorem decode_encode_configuration (c : Configuration) :
    decodeConfiguration (encodeConfiguration c) = some c := rfl

/-- C9: saving a Collection and loading the result back (the
existing-file branch of `loadConfig`, so auto-import does not fire)
reproduces exactly the same sequence of profiles with identical fields. -/
theorem save_load_roundtrip (config : ConfigFile) :
    loadConfigFromData (saveConfig config).content = some config := by
  have hl : decodeConfigurations (config.configurations.map encodeConfiguration) =
      some config.configurations := by
    induction config.configurations with
    | nil => rfl
    | cons c t ih => simp [decodeConfigurations, decode_encode_configuration, ih]
  show (decodeConfigurations (config.configurations.map encodeConfiguration)).map
      (fun cs => ConfigFile.mk cs) = some config
  rw [hl]
  rfl

end Ccc
